import Mathlib

/-!
Shallow embedding of `gpglib` (the packet content decryption engine in
`gpglib/content_parsers/crypt.py`): the algorithm registry (`Mapping`,
`Algorithms`, `Compression`), the MPI wire-format codec (`Mpi.parse`), the
per-algorithm key-material layouts (`Mpi.consume_*`), and the PKCS#1-v1.5
padding removal (`PKCS.consume`).

The source reads packet data through `bitstring.ConstBitStream` objects.  We
model them at two granularities, matching how each component actually uses
them: `Region` is bit-addressable (as exercised by `Mpi.parse`, which reads
`uint:16` and `mpi_length*8` bits), while `ConstBitStream` is byte-addressable
(as exercised by `PKCS.consume`, whose every operation is byte-aligned:
`read("bytes:1")`, `find("0x00", bytealigned=True)`, `read("bytes")`).

External collaborators (PyCrypto's `key.decrypt`, `Random.new().read`, and
`zlib.decompress`) are modelled as explicit parameters: the engine only shapes
bytes for them and interprets their output.
-/

namespace Gpglib

/-- The public key algorithm handles stored in `Algorithms.keys`: the source
dispatches by object identity against the imported `RSA`, `ElGamal`, `DSA`
classes. -/
inductive PubKeyAlg where
  | RSA
  | ElGamal
  | DSA
deriving DecidableEq

/-- The symmetric encryption handles stored in `Algorithms.encryption`. -/
inductive SymAlg where
  | CAST
deriving DecidableEq

/-- The hash handles stored in `Algorithms.hashes`. -/
inductive HashAlg where
  | SHA
  | SHA256
deriving DecidableEq

/-- Failure kinds of the engine.

* `TruncatedRegion` models `bitstring`'s `ReadError`: a read past the end of
  the region.
* `UnsupportedAlgorithm category code` models the `NotImplementedError`
  raised by `Mapping.__getitem__` ("Haven't implemented %s : %s").
* `UnknownMpiAlgorithm context tag` models the `errors.PGPException`
  raised by `Mpi.consume_*` ("Unknown mpi algorithm for %s %d"). -/
inductive GpgError where
  | TruncatedRegion
  | UnsupportedAlgorithm (category : String) (code : Nat)
  | UnknownMpiAlgorithm (context : String) (tag : PubKeyAlg)
deriving DecidableEq

/-! ## Bit-level region (bitstring.ConstBitStream as used by Mpi.parse) -/

/-- A bit-addressable view over packet data with a monotonically advancing
read cursor: `bitstring.ConstBitStream` at bit granularity. -/
structure Region where
  bits : List Bool
  pos : Nat
deriving DecidableEq

/-- `region.read(n)` for a bit-count `n`: returns the next `n` bits and the
advanced region, failing (bitstring `ReadError`) if fewer than `n` bits
remain. -/
def Region.readBits (r : Region) (n : Nat) : Except GpgError (List Bool × Region) :=
  if r.pos + n ≤ r.bits.length then
    .ok ((r.bits.drop r.pos).take n, ⟨r.bits, r.pos + n⟩)
  else
    .error .TruncatedRegion

/-- The unsigned big-endian value of a bit string (what `read("uint:16")`
returns for the 16 bits it consumed). -/
def bitsToNat (l : List Bool) : Nat :=
  l.foldl (fun a b => 2 * a + (if b then 1 else 0)) 0

/-- The `w`-bit big-endian bit string of `n` (most significant bit first). -/
def natToBits : Nat → Nat → List Bool
  | 0, _ => []
  | w + 1, n => natToBits w (n / 2) ++ [n % 2 == 1]

/-- A byte buffer laid out as bits, each byte big-endian. -/
def bytesToBits (bs : List Nat) : List Bool :=
  (bs.map (natToBits 8)).flatten

/-! ## MPI codec -/

namespace Mpi

/-- `Mpi.parse`: read a 16-bit unsigned big-endian bit-length, then read
`(raw_mpi_length + 7) / 8` bytes (as `mpi_length*8` bits), returning the
resulting bit string and the advanced region. -/
def parse (region : Region) : Except GpgError (List Bool × Region) :=
  match region.readBits 16 with
  | .error e => .error e
  | .ok (lenBits, r1) =>
    let raw_mpi_length := bitsToNat lenBits
    let mpi_length := (raw_mpi_length + 7) / 8
    match r1.readBits (mpi_length * 8) with
    | .error e => .error e
    | .ok (mpi, r2) => .ok (mpi, r2)

/-- Re-encoding of a byte sequence `bs` as an MPI with declared bit-length
`8 * bs.length` (the spec's round-trip re-encoder: 16-bit big-endian prefix
followed by the bytes). -/
def encode (bs : List Nat) : List Bool :=
  natToBits 16 (8 * bs.length) ++ bytesToBits bs

/-! ### Key-material MPI layouts (RFC4880 5.1, 5.5.2, 5.5.3)

Each layout returns the parsed MPIs in source order (the Python tuples are
modelled as lists, preserving arity and order) together with the advanced
region. -/

/-- Sequence two MPI reads, collecting results in order (the shape shared by
every layout function: each Python layout is a straight-line sequence of
`cls.parse(region)` calls returning a tuple). -/
def parse2 (region : Region) : Except GpgError (List (List Bool) × Region) :=
  match parse region with
  | .error err => .error err
  | .ok (a, r1) =>
    match parse r1 with
    | .error err => .error err
    | .ok (b, r2) => .ok ([a, b], r2)

/-- Sequence four MPI reads, collecting results in order. -/
def parse4 (region : Region) : Except GpgError (List (List Bool) × Region) :=
  match parse2 region with
  | .error err => .error err
  | .ok (ab, r2) =>
    match parse2 r2 with
    | .error err => .error err
    | .ok (cd, r4) => .ok (ab ++ cd, r4)

/-- Sequence one MPI read, as a singleton tuple. -/
def parse1 (region : Region) : Except GpgError (List (List Bool) × Region) :=
  match parse region with
  | .error err => .error err
  | .ok (a, r1) => .ok ([a], r1)

/-- `Mpi.rsa_mpis_public`: n and e. -/
def rsa_mpis_public (region : Region) : Except GpgError (List (List Bool) × Region) :=
  parse2 region

/-- `Mpi.rsa_mpis_private`: d, p, q and r. -/
def rsa_mpis_private (region : Region) : Except GpgError (List (List Bool) × Region) :=
  parse4 region

/-- `Mpi.elgamal_mpis_public`: p, g and y. -/
def elgamal_mpis_public (region : Region) : Except GpgError (List (List Bool) × Region) :=
  match parse2 region with
  | .error err => .error err
  | .ok (pg, r2) =>
    match parse r2 with
    | .error err => .error err
    | .ok (y, r3) => .ok (pg ++ [y], r3)

/-- `Mpi.elgamal_mpis_private`: x. -/
def elgamal_mpis_private (region : Region) : Except GpgError (List (List Bool) × Region) :=
  parse1 region

/-- `Mpi.dsa_mpis_public`: p, q, g and y. -/
def dsa_mpis_public (region : Region) : Except GpgError (List (List Bool) × Region) :=
  parse4 region

/-- `Mpi.dsa_mpis_private`: x. -/
def dsa_mpis_private (region : Region) : Except GpgError (List (List Bool) × Region) :=
  parse1 region

/-- `Mpi.consume_encryption`: MPI values of a public session key.  RSA: one
MPI (m^e mod n); ElGamal: two MPIs (g^k mod p, m * y^k mod p); any other
algorithm raises `PGPException("Unknown mpi algorithm for encryption ...")`. -/
def consume_encryption (region : Region) (algorithm : PubKeyAlg) :
    Except GpgError (List (List Bool) × Region) :=
  match algorithm with
  | .RSA => parse1 region
  | .ElGamal => parse2 region
  | a => .error (.UnknownMpiAlgorithm "encryption" a)

/-- `Mpi.consume_public`: MPI values of a public key for the algorithm. -/
def consume_public (region : Region) (algorithm : PubKeyAlg) :
    Except GpgError (List (List Bool) × Region) :=
  match algorithm with
  | .RSA => rsa_mpis_public region
  | .ElGamal => elgamal_mpis_public region
  | .DSA => dsa_mpis_public region

/-- `Mpi.consume_private`: MPI values of a private key for the algorithm. -/
def consume_private (region : Region) (algorithm : PubKeyAlg) :
    Except GpgError (List (List Bool) × Region) :=
  match algorithm with
  | .RSA => rsa_mpis_private region
  | .ElGamal => elgamal_mpis_private region
  | .DSA => dsa_mpis_private region

end Mpi

/-! ## Mappings (the algorithm registry) -/

/-- `Mapping`: item access over a map of values that raises
`NotImplementedError` for a key not defined on it.  The Python dict is
modelled as an association list; `typ` is the `type` description used in the
error message. -/
structure Mapping (α : Type) where
  typ : String
  map : List (Nat × α)

/-- `Mapping.__getitem__`: complain if the key is not known, otherwise return
the mapped value. -/
def Mapping.getitem {α : Type} (m : Mapping α) (key : Nat) : Except GpgError α :=
  match m.map.lookup key with
  | some v => .ok v
  | none => .error (.UnsupportedAlgorithm m.typ key)

/-- `Algorithms.encryption`: 3 = CAST5. -/
def Algorithms.encryption : Mapping SymAlg :=
  ⟨"Symmetric encryption algorithm", [(3, .CAST)]⟩

/-- `Algorithms.hashes`: 2 = SHA-1, 8 = SHA-256. -/
def Algorithms.hashes : Mapping HashAlg :=
  ⟨"Hash Algorithm", [(2, .SHA), (8, .SHA256)]⟩

/-- `Algorithms.keys`: 1, 2, 3 = RSA; 16 = ElGamal; 17 = DSA. -/
def Algorithms.keys : Mapping PubKeyAlg :=
  ⟨"Key algorithm", [(1, .RSA), (2, .RSA), (3, .RSA), (16, .ElGamal), (17, .DSA)]⟩

/-! ## Compression

`zlib.decompress` is an external primitive; it is modelled as an explicit
function parameter taking the compressed bytes and the window-size
argument. -/

/-- `Compression.decompress_zlib`: calls `zlib.decompress(compressed, -15)` —
the negative window size says to ignore the zlib header and that the data is
compressed with up to 15 bits of compression. -/
def Compression.decompress_zlib (zlibDecompress : List Nat → Int → List Nat)
    (compressed : List Nat) : List Nat :=
  zlibDecompress compressed (-15)

/-- `Compression.decompression`: 1 = `decompress_zlib`. -/
def Compression.decompression (zlibDecompress : List Nat → Int → List Nat) :
    Mapping (List Nat → List Nat) :=
  ⟨"Decompressor", [(1, Compression.decompress_zlib zlibDecompress)]⟩

/-! ## PKCS (bitstring.ConstBitStream as used by PKCS.consume)

`PKCS.consume` first collects the encryption MPIs and feeds them to the
external `key.decrypt`; everything after that point operates byte-aligned on
the decrypted buffer. -/

/-- A byte-aligned view of `bitstring.ConstBitStream`: the underlying bytes
plus the `bytepos` cursor. -/
structure ConstBitStream where
  bytes : List Nat
  bytepos : Nat
deriving DecidableEq

/-- `stream.read("bytes:1")`: the byte at the cursor, advancing by one;
`ReadError` past the end. -/
def ConstBitStream.read_bytes_1 (s : ConstBitStream) :
    Except GpgError (Nat × ConstBitStream) :=
  match s.bytes.drop s.bytepos with
  | [] => .error .TruncatedRegion
  | b :: _ => .ok (b, ⟨s.bytes, s.bytepos + 1⟩)

/-- `stream.read("bytes")`: every remaining byte, leaving the cursor at the
end (the empty byte string when already there). -/
def ConstBitStream.read_bytes_rest (s : ConstBitStream) : List Nat × ConstBitStream :=
  (s.bytes.drop s.bytepos, ⟨s.bytes, s.bytes.length⟩)

/-- Index of the first zero byte of `l`, offset by `i` (helper for `find`). -/
def findZeroFrom : List Nat → Nat → Option Nat
  | [], _ => none
  | b :: bs, i => if b = 0 then some i else findZeroFrom bs (i + 1)

/-- `stream.find("0x00", bytealigned=True)`: search the whole buffer (the
default search range starts at 0) for a zero byte; on success set `bytepos`
to the found position, on failure leave the cursor unchanged. -/
def ConstBitStream.find_zero (s : ConstBitStream) : Bool × ConstBitStream :=
  match findZeroFrom s.bytes 0 with
  | some i => (true, ⟨s.bytes, i⟩)
  | none => (false, s)

/-- `PKCS.consume` after the external `key.decrypt`: `paddedBytes` is the
decrypted buffer and `rand19` the pre-generated `Random.new().read(19)`
fallback (randomness is external, so it is a parameter).  Returns the fresh
stream over the recovered value together with the final state of the padded
stream (exposed so the specification can speak about its cursor). -/
def PKCS.consume_padded_state (paddedBytes rand19 : List Nat) :
    Except GpgError (ConstBitStream × ConstBitStream) :=
  let padded : ConstBitStream := ⟨paddedBytes, 0⟩
  -- Default decrypted to random values
  let decrypted0 := rand19
  -- First byte needs to be 02
  match padded.read_bytes_1 with
  | .error e => .error e
  | .ok (b0, padded1) =>
    let step : Except GpgError (List Nat × ConstBitStream) :=
      if b0 = 2 then
        -- Find the next 00
        let pos_before := padded1.bytepos
        let (_found, padded2) := padded1.find_zero
        let pos_after := padded2.bytepos
        -- The ps section needs to be greater than 8
        if (pos_after : Int) - (pos_before : Int) ≥ 8 then
          -- Read in the seperator 0 byte
          match padded2.read_bytes_1 with
          | .error e => .error e
          | .ok (_sep, padded3) =>
            -- Decrypted value is the rest of the padded value
            let (dec, padded4) := padded3.read_bytes_rest
            .ok (dec, padded4)
        else .ok (decrypted0, padded2)
      else .ok (decrypted0, padded1)
    match step with
    | .error e => .error e
    | .ok (decrypted, padded5) =>
      -- Read in and discard the rest of padded if not already read in
      let (_, padded6) := padded5.read_bytes_rest
      -- Make a bitstream to read from
      .ok (⟨decrypted, 0⟩, padded6)

/-- The value `PKCS.consume` actually returns: the fresh readable stream over
the recovered payload. -/
def PKCS.consume_padded (paddedBytes rand19 : List Nat) :
    Except GpgError ConstBitStream :=
  (PKCS.consume_padded_state paddedBytes rand19).map Prod.fst

end Gpglib

namespace Gpglib

/-! ### Helper lemmas on bits -/

theorem natToBits_length (w n : Nat) : (natToBits w n).length = w := by
  induction w generalizing n with
  | zero => rfl
  | succ w ih => simp [natToBits, ih]

theorem bitsToNat_append_single (l : List Bool) (b : Bool) :
    bitsToNat (l ++ [b]) = 2 * bitsToNat l + (if b then 1 else 0) := by
  simp [bitsToNat, List.foldl_append]

theorem mod_two_pow_succ (w n : Nat) : n % 2 ^ (w + 1) = 2 * (n / 2 % 2 ^ w) + n % 2 := by
  have hpos : 0 < 2 ^ w := Nat.pow_pos (by norm_num)
  have hs : n / 2 % 2 ^ w < 2 ^ w := Nat.mod_lt _ hpos
  have hr : n % 2 < 2 := Nat.mod_lt _ (by norm_num)
  conv_lhs => rw [← Nat.div_add_mod n 2, ← Nat.div_add_mod (n / 2) (2 ^ w)]
  have hrw : 2 * (2 ^ w * (n / 2 / 2 ^ w) + n / 2 % 2 ^ w) + n % 2
      = 2 ^ (w + 1) * (n / 2 / 2 ^ w) + (2 * (n / 2 % 2 ^ w) + n % 2) := by
    rw [pow_succ]; ring
  rw [hrw, Nat.mul_add_mod, Nat.mod_eq_of_lt (by rw [pow_succ]; omega)]

theorem bitsToNat_natToBits (w n : Nat) : bitsToNat (natToBits w n) = n % 2 ^ w := by
  induction w generalizing n with
  | zero => simp [natToBits, bitsToNat, Nat.mod_one]
  | succ w ih =>
    rw [natToBits, bitsToNat_append_single, ih, mod_two_pow_succ]
    rcases Nat.mod_two_eq_zero_or_one n with h | h <;> simp [h]

theorem bytesToBits_cons (b : Nat) (bs : List Nat) :
    bytesToBits (b :: bs) = natToBits 8 b ++ bytesToBits bs := rfl

theorem bytesToBits_length (bs : List Nat) : (bytesToBits bs).length = 8 * bs.length := by
  induction bs with
  | nil => rfl
  | cons b bs ih =>
    rw [bytesToBits_cons]
    simp [natToBits_length, ih]
    ring

theorem take_append_exact {α : Type} (l₁ l₂ : List α) : (l₁ ++ l₂).take l₁.length = l₁ := by
  induction l₁ with
  | nil => simp
  | cons a l ih => simp [ih]

theorem drop_append_exact {α : Type} (l₁ l₂ : List α) : (l₁ ++ l₂).drop l₁.length = l₂ := by
  induction l₁ with
  | nil => simp
  | cons a l ih => simp [ih]

/-! ### MPI codec behaviour -/

theorem readBits_ok (bits : List Bool) (p n : Nat) (h : p + n ≤ bits.length) :
    Region.readBits ⟨bits, p⟩ n = .ok ((bits.drop p).take n, ⟨bits, p + n⟩) := by
  simp [Region.readBits, h]

theorem readBits_err (bits : List Bool) (p n : Nat) (h : bits.length < p + n) :
    Region.readBits ⟨bits, p⟩ n = .error .TruncatedRegion := by
  simp [Region.readBits]
  omega

theorem parse_ok_ok (region : Region) (lenBits : List Bool) (r1 : Region)
    (mpi : List Bool) (r2 : Region)
    (h1 : region.readBits 16 = .ok (lenBits, r1))
    (h2 : r1.readBits ((bitsToNat lenBits + 7) / 8 * 8) = .ok (mpi, r2)) :
    Mpi.parse region = .ok (mpi, r2) := by
  unfold Mpi.parse
  rw [h1]
  dsimp only
  rw [h2]

theorem parse_ok_err (region : Region) (lenBits : List Bool) (r1 : Region) (err : GpgError)
    (h1 : region.readBits 16 = .ok (lenBits, r1))
    (h2 : r1.readBits ((bitsToNat lenBits + 7) / 8 * 8) = .error err) :
    Mpi.parse region = .error err := by
  unfold Mpi.parse
  rw [h1]
  dsimp only
  rw [h2]

theorem mpi_parse_append_ok (n : Nat) (data rest : List Bool) (hn : n < 65536)
    (hdata : data.length = 8 * ((n + 7) / 8)) :
    Mpi.parse ⟨natToBits 16 n ++ (data ++ rest), 0⟩ =
      .ok (data, ⟨natToBits 16 n ++ (data ++ rest), 16 + data.length⟩) := by
  have h16 : (natToBits 16 n).length = 16 := natToBits_length 16 n
  have hlen : (natToBits 16 n ++ (data ++ rest)).length = 16 + (data.length + rest.length) := by
    simp [h16]
  have hval : bitsToNat (natToBits 16 n) = n := by
    rw [bitsToNat_natToBits]
    exact Nat.mod_eq_of_lt (lt_of_lt_of_le hn (by norm_num))
  have htake : (natToBits 16 n ++ (data ++ rest)).take 16 = natToBits 16 n := by
    have := take_append_exact (natToBits 16 n) (data ++ rest)
    rwa [h16] at this
  have hdrop : (natToBits 16 n ++ (data ++ rest)).drop 16 = data ++ rest := by
    have := drop_append_exact (natToBits 16 n) (data ++ rest)
    rwa [h16] at this
  apply parse_ok_ok _ (natToBits 16 n) ⟨natToBits 16 n ++ (data ++ rest), 0 + 16⟩
  · rw [readBits_ok _ _ _ (by omega)]
    rw [List.drop_zero, htake]
  · rw [hval, readBits_ok _ _ _ (by omega)]
    have e2 : (data ++ rest).take ((n + 7) / 8 * 8) = data := by
      have := take_append_exact data rest
      rw [show (n + 7) / 8 * 8 = data.length from by omega]
      exact this
    rw [show (0 : Nat) + 16 = 16 from rfl, hdrop, e2,
      show 16 + (n + 7) / 8 * 8 = 16 + data.length from by omega]

/-- C4: `Mpi.parse` reads a 16-bit unsigned big-endian bit-length prefix, then
reads and returns exactly `ceil(bits/8)` bytes, advancing the cursor past
them; for a byte sequence of length `L` under declared bit-length `8*L`,
parsing the encoding recovers exactly the bytes' bits, and re-encoding them
with the same prefix reproduces the original encoding (round-trip). -/
theorem mpi_parse_roundtrip (bs : List Nat) (h : 8 * bs.length < 65536) :
    Mpi.parse ⟨Mpi.encode bs, 0⟩ =
      .ok (bytesToBits bs, ⟨Mpi.encode bs, (Mpi.encode bs).length⟩) ∧
    natToBits 16 (8 * bs.length) ++ bytesToBits bs = Mpi.encode bs := by
  constructor
  · have hdata : (bytesToBits bs).length = 8 * ((8 * bs.length + 7) / 8) := by
      rw [bytesToBits_length]
      omega
    have key := mpi_parse_append_ok (8 * bs.length) (bytesToBits bs) [] h hdata
    rw [List.append_nil] at key
    rw [show Mpi.encode bs = natToBits 16 (8 * bs.length) ++ bytesToBits bs from rfl,
      show (natToBits 16 (8 * bs.length) ++ bytesToBits bs).length
          = 16 + (bytesToBits bs).length from by simp [natToBits_length]]
    exact key
  · rfl

/-- Witness for C4 at the two-byte sequence `[0xAB, 0xCD]`. -/
theorem mpi_parse_roundtrip_witness :
    8 * [0xAB, 0xCD].length < 65536 ∧
    (Mpi.parse ⟨Mpi.encode [0xAB, 0xCD], 0⟩ =
        .ok (bytesToBits [0xAB, 0xCD], ⟨Mpi.encode [0xAB, 0xCD], (Mpi.encode [0xAB, 0xCD]).length⟩) ∧
      natToBits 16 (8 * [0xAB, 0xCD].length) ++ bytesToBits [0xAB, 0xCD] = Mpi.encode [0xAB, 0xCD]) :=
  ⟨by norm_num, mpi_parse_roundtrip [0xAB, 0xCD] (by norm_num)⟩

/-- C5: `Mpi.parse` fails with `TruncatedRegion` whenever fewer bits remain
after the 16-bit prefix than the declared `ceil(bits/8)` bytes require — in
particular on a region holding only the prefix with a declared length of at
least one byte. -/
theorem mpi_parse_truncated (n : Nat) (rest : List Bool) (h1 : n < 65536)
    (h2 : rest.length < 8 * ((n + 7) / 8)) :
    Mpi.parse ⟨natToBits 16 n ++ rest, 0⟩ = .error .TruncatedRegion := by
  have h16 : (natToBits 16 n).length = 16 := natToBits_length 16 n
  have hval : bitsToNat (natToBits 16 n) = n := by
    rw [bitsToNat_natToBits]
    exact Nat.mod_eq_of_lt (lt_of_lt_of_le h1 (by norm_num))
  have htake : (natToBits 16 n ++ rest).take 16 = natToBits 16 n := by
    have := take_append_exact (natToBits 16 n) rest
    rwa [h16] at this
  apply parse_ok_err _ (natToBits 16 n) ⟨natToBits 16 n ++ rest, 0 + 16⟩
  · rw [readBits_ok _ _ _ (by simp [h16])]
    rw [List.drop_zero, htake]
  · rw [hval]
    apply readBits_err
    simp [h16]
    omega

/-- Witness for C5: a region holding only the prefix declaring 8 bits
(one byte) and no data. -/
theorem mpi_parse_truncated_witness :
    8 < 65536 ∧ (List.nil : List Bool).length < 8 * ((8 + 7) / 8) ∧
    Mpi.parse ⟨natToBits 16 8 ++ [], 0⟩ = .error .TruncatedRegion :=
  ⟨by norm_num, by norm_num, mpi_parse_truncated 8 [] (by norm_num) (by norm_num)⟩

/-! ### Algorithm registry behaviour -/

/-- C6: looking up any of the codes 1, 2, 3, 16, 17 in the public-key
algorithm registry succeeds with a handle, and looking up any other code
fails with `UnsupportedAlgorithm("Key algorithm", code)` — never a silent
default. -/
theorem registry_totality (code : Nat) :
    ((code = 1 ∨ code = 2 ∨ code = 3 ∨ code = 16 ∨ code = 17) →
      ∃ a, Algorithms.keys.getitem code = .ok a) ∧
    (code ≠ 1 → code ≠ 2 → code ≠ 3 → code ≠ 16 → code ≠ 17 →
      Algorithms.keys.getitem code = .error (.UnsupportedAlgorithm "Key algorithm" code)) := by
  constructor
  · rintro (rfl | rfl | rfl | rfl | rfl) <;> exact ⟨_, rfl⟩
  · intro h1 h2 h3 h16 h17
    have b1 : (code == 1) = false := beq_eq_false_iff_ne.mpr h1
    have b2 : (code == 2) = false := beq_eq_false_iff_ne.mpr h2
    have b3 : (code == 3) = false := beq_eq_false_iff_ne.mpr h3
    have b16 : (code == 16) = false := beq_eq_false_iff_ne.mpr h16
    have b17 : (code == 17) = false := beq_eq_false_iff_ne.mpr h17
    simp [Algorithms.keys, Mapping.getitem, List.lookup, b1, b2, b3, b16, b17]

/-- Witness for C6 at the registered code 1 and the unregistered code 5. -/
theorem registry_totality_witness :
    (∃ a, Algorithms.keys.getitem 1 = .ok a) ∧
    Algorithms.keys.getitem 5 = .error (.UnsupportedAlgorithm "Key algorithm" 5) :=
  ⟨(registry_totality 1).1 (Or.inl rfl),
    (registry_totality 5).2 (by decide) (by decide) (by decide) (by decide) (by decide)⟩

/-! ### Key-material layout behaviour -/

/-- C7: whenever the region holds sufficient data, the layouts have fixed
arity and order: RSA public = 2 MPIs (n, e); DSA private = 1 MPI (x);
ElGamal encryption-ciphertext = 2 MPIs (g^k mod p, m·y^k mod p); RSA
encryption = 1 MPI (m^e mod n) — in each case in parse order. -/
theorem layout_counts (r r1 r2 : Region) (m1 m2 : List Bool)
    (h1 : Mpi.parse r = .ok (m1, r1)) (h2 : Mpi.parse r1 = .ok (m2, r2)) :
    Mpi.consume_public r .RSA = .ok ([m1, m2], r2) ∧
    Mpi.consume_private r .DSA = .ok ([m1], r1) ∧
    Mpi.consume_encryption r .ElGamal = .ok ([m1, m2], r2) ∧
    Mpi.consume_encryption r .RSA = .ok ([m1], r1) := by
  have p1 : Mpi.parse1 r = .ok ([m1], r1) := by
    unfold Mpi.parse1
    rw [h1]
  have p2 : Mpi.parse2 r = .ok ([m1, m2], r2) := by
    unfold Mpi.parse2
    rw [h1]
    dsimp only
    rw [h2]
  exact ⟨p2, p1, p2, p1⟩

/-- Witness for C7 on a concrete region holding two one-byte MPIs. -/
theorem layout_counts_witness :
    Mpi.consume_public ⟨Mpi.encode [3] ++ Mpi.encode [5], 0⟩ .RSA =
      .ok ([bytesToBits [3], bytesToBits [5]], ⟨Mpi.encode [3] ++ Mpi.encode [5], 48⟩) ∧
    Mpi.consume_private ⟨Mpi.encode [3] ++ Mpi.encode [5], 0⟩ .DSA =
      .ok ([bytesToBits [3]], ⟨Mpi.encode [3] ++ Mpi.encode [5], 24⟩) ∧
    Mpi.consume_encryption ⟨Mpi.encode [3] ++ Mpi.encode [5], 0⟩ .ElGamal =
      .ok ([bytesToBits [3], bytesToBits [5]], ⟨Mpi.encode [3] ++ Mpi.encode [5], 48⟩) ∧
    Mpi.consume_encryption ⟨Mpi.encode [3] ++ Mpi.encode [5], 0⟩ .RSA =
      .ok ([bytesToBits [3]], ⟨Mpi.encode [3] ++ Mpi.encode [5], 24⟩) :=
  layout_counts _ ⟨Mpi.encode [3] ++ Mpi.encode [5], 24⟩ _ _ _ (by rfl) (by rfl)

/-- C8: the encryption-ciphertext context has no layout for DSA (DSA is
sign-only): `Mpi.consume_encryption` fails with
`UnknownMpiAlgorithm("encryption", DSA)` on every region. -/
theorem consume_encryption_dsa_unknown (region : Region) :
    Mpi.consume_encryption region .DSA =
      .error (.UnknownMpiAlgorithm "encryption" .DSA) := rfl

/-! ### Compression behaviour -/

/-- C9: the decompressor registered for method code 1 is `decompress_zlib`,
which invokes the external zlib primitive with window size `-15` (raw
deflate, no zlib header); hence whenever the primitive inverts a raw-deflate
compressor at window `-15`, decompressing a compressed plaintext through the
registered decompressor reproduces the plaintext exactly; any other method
code fails with `UnsupportedAlgorithm("Decompressor", code)`. -/
theorem compression_raw_deflate (zlibDecompress : List Nat → Int → List Nat)
    (compressRaw : List Nat → List Nat)
    (hz : ∀ p, zlibDecompress (compressRaw p) (-15) = p) :
    (∀ c, Compression.decompress_zlib zlibDecompress c = zlibDecompress c (-15)) ∧
    ((Compression.decompression zlibDecompress).getitem 1 =
      .ok (Compression.decompress_zlib zlibDecompress)) ∧
    (∀ p, Compression.decompress_zlib zlibDecompress (compressRaw p) = p) ∧
    (∀ code, code ≠ 1 →
      (Compression.decompression zlibDecompress).getitem code =
        .error (.UnsupportedAlgorithm "Decompressor" code)) := by
  refine ⟨fun c => rfl, rfl, fun p => hz p, fun code hc => ?_⟩
  have b1 : (code == 1) = false := beq_eq_false_iff_ne.mpr hc
  simp [Compression.decompression, Mapping.getitem, List.lookup, b1]

/-- Stub zlib primitive for the C9 witness: honours the raw-deflate window
convention on otherwise-identity compression. -/
def zlibDecompressStub : List Nat → Int → List Nat :=
  fun c w => if w = -15 then c else []

/-- Stub raw-deflate compressor for the C9 witness. -/
def rawDeflateCompressStub : List Nat → List Nat := fun p => p

/-- Witness for C9 at a concrete plaintext and the unregistered code 2. -/
theorem compression_raw_deflate_witness :
    Compression.decompress_zlib zlibDecompressStub (rawDeflateCompressStub [3, 1, 4]) = [3, 1, 4] ∧
    (Compression.decompression zlibDecompressStub).getitem 2 =
      .error (.UnsupportedAlgorithm "Decompressor" 2) := by
  have h := compression_raw_deflate zlibDecompressStub rawDeflateCompressStub
    (fun p => by simp [zlibDecompressStub, rawDeflateCompressStub])
  exact ⟨h.2.2.1 [3, 1, 4], h.2.2.2 2 (by decide)⟩

/-! ### PKCS padding-removal behaviour -/

theorem findZeroFrom_append_zero (l rest : List Nat) (i : Nat) (h : ∀ b ∈ l, b ≠ 0) :
    findZeroFrom (l ++ 0 :: rest) i = some (i + l.length) := by
  induction l generalizing i with
  | nil => simp [findZeroFrom]
  | cons a l ih =>
    have ha : a ≠ 0 := h a (by simp)
    simp only [List.cons_append, findZeroFrom, if_neg ha, List.append_eq]
    rw [ih (i + 1) (fun b hb => h b (List.mem_cons_of_mem a hb))]
    congr 1
    simp only [List.length_cons]
    omega

theorem findZeroFrom_none (l : List Nat) (i : Nat) (h : ∀ b ∈ l, b ≠ 0) :
    findZeroFrom l i = none := by
  induction l generalizing i with
  | nil => rfl
  | cons a l ih =>
    have ha : a ≠ 0 := h a (by simp)
    simp only [findZeroFrom, if_neg ha]
    exact ih (i + 1) (fun b hb => h b (List.mem_cons_of_mem a hb))

theorem findZeroFrom_bounds (l : List Nat) (i j : Nat) (h : findZeroFrom l i = some j) :
    i ≤ j ∧ j < i + l.length := by
  induction l generalizing i with
  | nil => simp [findZeroFrom] at h
  | cons a l ih =>
    simp only [findZeroFrom] at h
    by_cases ha : a = 0
    · rw [if_pos ha] at h
      injection h with h
      simp [h]
    · rw [if_neg ha] at h
      have := ih _ h
      constructor
      · omega
      · simp
        omega

theorem read_bytes_1_eq (s : ConstBitStream) (b : Nat) (tl : List Nat)
    (h : s.bytes.drop s.bytepos = b :: tl) :
    s.read_bytes_1 = .ok (b, ⟨s.bytes, s.bytepos + 1⟩) := by
  unfold ConstBitStream.read_bytes_1
  rw [h]

theorem find_zero_some (s : ConstBitStream) (i : Nat) (h : findZeroFrom s.bytes 0 = some i) :
    s.find_zero = (true, ⟨s.bytes, i⟩) := by
  unfold ConstBitStream.find_zero
  rw [h]

theorem find_zero_fail (s : ConstBitStream) (h : findZeroFrom s.bytes 0 = none) :
    s.find_zero = (false, s) := by
  unfold ConstBitStream.find_zero
  rw [h]

/-- The good-padding run of `PKCS.consume`, on the internal state: byte 0 is
`0x02`, at least 8 non-zero padding bytes, then the `0x00` separator; the
result replaces the random fallback by the bytes after the separator, and the
padded buffer ends fully consumed. -/
theorem pkcs_state_wellformed (ps rest rand : List Nat)
    (hps : ∀ b ∈ ps, b ≠ 0) (hlen : 8 ≤ ps.length) :
    PKCS.consume_padded_state (2 :: ps ++ 0 :: rest) rand =
      .ok (⟨rest, 0⟩, ⟨2 :: ps ++ 0 :: rest, (2 :: ps ++ 0 :: rest).length⟩) := by
  have h2ps : ∀ b ∈ 2 :: ps, b ≠ 0 := by
    intro b hb
    rcases List.mem_cons.mp hb with h | h
    · subst h; omega
    · exact hps b h
  have hfind : findZeroFrom (2 :: ps ++ 0 :: rest) 0 = some (ps.length + 1) := by
    have := findZeroFrom_append_zero (2 :: ps) rest 0 h2ps
    simp at this
    exact this
  have hdrop1 : (2 :: ps ++ 0 :: rest).drop (ps.length + 1) = 0 :: rest := by
    simp
  have hdrop2 : (2 :: ps ++ 0 :: rest).drop (ps.length + 1 + 1) = rest := by
    have h1 : 2 :: ps ++ 0 :: rest = (2 :: (ps ++ [0])) ++ rest := by simp
    have h2 : (2 :: (ps ++ [0])).length = ps.length + 1 + 1 := by simp
    rw [h1, ← h2, drop_append_exact]
  unfold PKCS.consume_padded_state
  dsimp only
  rw [read_bytes_1_eq _ 2 (ps ++ 0 :: rest) (by simp)]
  dsimp only
  rw [if_pos (rfl : (2 : Nat) = 2)]
  rw [find_zero_some _ (ps.length + 1) hfind]
  dsimp only
  rw [if_pos (by push_cast; omega : ((ps.length + 1 : Nat) : Int) - ((0 + 1 : Nat) : Int) ≥ 8)]
  rw [read_bytes_1_eq _ 0 rest hdrop1]
  dsimp only [ConstBitStream.read_bytes_rest]
  rw [hdrop2]

/-- C1: on a decrypted buffer of the form `0x02`, at least 8 non-zero padding
bytes, a `0x00` separator, then the payload, `PKCS.consume` discards the
separator and returns exactly the bytes after it (in a fresh cursor at
position 0), replacing the pre-generated random fallback. -/
theorem pkcs_consume_wellformed (ps rest rand : List Nat)
    (hps : ∀ b ∈ ps, b ≠ 0) (hlen : 8 ≤ ps.length) :
    PKCS.consume_padded (2 :: ps ++ 0 :: rest) rand = .ok ⟨rest, 0⟩ := by
  unfold PKCS.consume_padded
  rw [pkcs_state_wellformed ps rest rand hps hlen]
  rfl

/-- Witness for C1: 8 padding ones, separator, payload `[4, 5]`. -/
theorem pkcs_consume_wellformed_witness :
    PKCS.consume_padded (2 :: List.replicate 8 1 ++ 0 :: [4, 5]) (List.replicate 19 7) =
      .ok ⟨[4, 5], 0⟩ :=
  pkcs_consume_wellformed (List.replicate 8 1) [4, 5] (List.replicate 19 7)
    (by decide) (by decide)

/-- Wrong first byte: the `0x02` test fails, the fallback is kept, and the
whole buffer is consumed. -/
theorem pkcs_state_wrong_first (b : Nat) (bs rand : List Nat) (hb : b ≠ 2) :
    PKCS.consume_padded_state (b :: bs) rand =
      .ok (⟨rand, 0⟩, ⟨b :: bs, (b :: bs).length⟩) := by
  unfold PKCS.consume_padded_state
  dsimp only
  rw [read_bytes_1_eq _ b bs (by simp)]
  dsimp only
  rw [if_neg hb]
  dsimp only [ConstBitStream.read_bytes_rest]

/-- First byte `0x02` but the first zero byte sits at index `i < 9`, so the
padding run is shorter than 8: the fallback is kept and the whole buffer is
consumed. -/
theorem pkcs_state_short_run (bs rand : List Nat) (i : Nat)
    (hfind : findZeroFrom (2 :: bs) 0 = some i) (hi : i < 9) :
    PKCS.consume_padded_state (2 :: bs) rand =
      .ok (⟨rand, 0⟩, ⟨2 :: bs, (2 :: bs).length⟩) := by
  unfold PKCS.consume_padded_state
  dsimp only
  rw [read_bytes_1_eq _ 2 bs (by simp)]
  dsimp only
  rw [if_pos (rfl : (2 : Nat) = 2)]
  rw [find_zero_some _ i hfind]
  dsimp only
  rw [if_neg (by push_cast; omega : ¬((i : Int) - ((0 + 1 : Nat) : Int) ≥ 8))]
  dsimp only [ConstBitStream.read_bytes_rest]

/-- C2: on malformed padding — first byte not `0x02`, or the non-zero run
before the first `0x00` shorter than 8 bytes — `PKCS.consume` raises no
error and returns the pre-generated 19-byte random fallback unchanged. -/
theorem pkcs_consume_malformed (b : Nat) (bs rand : List Nat) (_hrand : rand.length = 19)
    (h : b ≠ 2 ∨ ∃ i, findZeroFrom (b :: bs) 0 = some i ∧ i < 9) :
    PKCS.consume_padded (b :: bs) rand = .ok ⟨rand, 0⟩ := by
  unfold PKCS.consume_padded
  rcases h with hb | ⟨i, hfind, hi⟩
  · rw [pkcs_state_wrong_first b bs rand hb]
    rfl
  · by_cases hb : b = 2
    · subst hb
      rw [pkcs_state_short_run bs rand i hfind hi]
      rfl
    · rw [pkcs_state_wrong_first b bs rand hb]
      rfl

/-- Witness for C2: buffer starting with `0x01`, 19-byte fallback. -/
theorem pkcs_consume_malformed_witness :
    PKCS.consume_padded (1 :: [2, 3]) (List.replicate 19 7) =
      .ok ⟨List.replicate 19 7, 0⟩ :=
  pkcs_consume_malformed 1 [2, 3] (List.replicate 19 7) (by decide) (Or.inl (by decide))

/-- Totality of `PKCS.consume` on non-empty buffers: it returns (no error)
and the padded stream ends fully consumed, on every branch. -/
theorem pkcs_state_total (buf rand : List Nat) (h : buf ≠ []) :
    ∃ res, PKCS.consume_padded_state buf rand = .ok (res, ⟨buf, buf.length⟩) := by
  obtain ⟨b, bs, rfl⟩ := List.exists_cons_of_ne_nil h
  by_cases hb : b = 2
  · subst hb
    cases hfz : findZeroFrom (2 :: bs) 0 with
    | none =>
      refine ⟨⟨rand, 0⟩, ?_⟩
      unfold PKCS.consume_padded_state
      dsimp only
      rw [read_bytes_1_eq _ 2 bs (by simp)]
      dsimp only
      rw [if_pos (rfl : (2 : Nat) = 2), find_zero_fail _ hfz]
      dsimp only
      rw [if_neg (by decide :
        ¬(((0 + 1 : Nat) : Int) - ((0 + 1 : Nat) : Int) ≥ 8))]
      dsimp only [ConstBitStream.read_bytes_rest]
    | some i =>
      by_cases hge : (i : Int) - ((0 + 1 : Nat) : Int) ≥ 8
      · have hbound := findZeroFrom_bounds _ _ _ hfz
        have hi : i < bs.length + 1 := by
          have := hbound.2
          simp only [List.length_cons] at this
          omega
        obtain ⟨c, tl, hdrop⟩ : ∃ c tl, (2 :: bs).drop i = c :: tl := by
          cases hd : (2 :: bs).drop i with
          | nil =>
            exfalso
            have hlen0 := congrArg List.length hd
            simp only [List.length_drop, List.length_cons, List.length_nil] at hlen0
            omega
          | cons c tl => exact ⟨c, tl, rfl⟩
        refine ⟨⟨(2 :: bs).drop (i + 1), 0⟩, ?_⟩
        unfold PKCS.consume_padded_state
        dsimp only
        rw [read_bytes_1_eq _ 2 bs (by simp)]
        dsimp only
        rw [if_pos (rfl : (2 : Nat) = 2), find_zero_some _ i hfz]
        dsimp only
        rw [if_pos hge]
        rw [read_bytes_1_eq _ c tl hdrop]
        dsimp only [ConstBitStream.read_bytes_rest]
      · refine ⟨⟨rand, 0⟩, ?_⟩
        unfold PKCS.consume_padded_state
        dsimp only
        rw [read_bytes_1_eq _ 2 bs (by simp)]
        dsimp only
        rw [if_pos (rfl : (2 : Nat) = 2), find_zero_some _ i hfz]
        dsimp only
        rw [if_neg hge]
        dsimp only [ConstBitStream.read_bytes_rest]
  · refine ⟨⟨rand, 0⟩, ?_⟩
    unfold PKCS.consume_padded_state
    dsimp only
    rw [read_bytes_1_eq _ b bs (by simp)]
    dsimp only
    rw [if_neg hb]
    dsimp only [ConstBitStream.read_bytes_rest]

/-- C3: `PKCS.consume` fully consumes the decrypted buffer on both the
well-formed-padding path and the malformed-padding path: whenever it returns,
the cursor of the padded stream stands at the end of the buffer, and on every
non-empty buffer it does return, with no early exit. -/
theorem pkcs_consume_consumes_all (buf rand : List Nat) :
    (∀ res fin, PKCS.consume_padded_state buf rand = .ok (res, fin) →
      fin = ⟨buf, buf.length⟩) ∧
    (buf ≠ [] → ∃ res, PKCS.consume_padded_state buf rand = .ok (res, ⟨buf, buf.length⟩)) := by
  constructor
  · intro res fin hok
    cases buf with
    | nil => exact absurd hok (by simp [PKCS.consume_padded_state, ConstBitStream.read_bytes_1])
    | cons b bs =>
      obtain ⟨res₀, h₀⟩ := pkcs_state_total (b :: bs) rand (by simp)
      rw [h₀] at hok
      injection hok with hok
      exact (congrArg Prod.snd hok).symm
  · exact pkcs_state_total buf rand

/-- Witness for C3 at the one-byte buffer `[5]`. -/
theorem pkcs_consume_consumes_all_witness :
    ∃ res, PKCS.consume_padded_state [5] [] = .ok (res, ⟨[5], [5].length⟩) :=
  (pkcs_consume_consumes_all [5] []).2 (by decide)

/-- C10: first byte `0x02` but no `0x00` anywhere after it: the failed
separator search leaves the cursor unchanged, the run-length check fails, and
`PKCS.consume` returns the 19-byte random fallback with no error, consuming
the whole buffer. -/
theorem pkcs_consume_no_separator (bs rand : List Nat) (_hrand : rand.length = 19)
    (hbs : ∀ b ∈ bs, b ≠ 0) :
    ConstBitStream.find_zero ⟨2 :: bs, 1⟩ = (false, ⟨2 :: bs, 1⟩) ∧
    PKCS.consume_padded_state (2 :: bs) rand =
      .ok (⟨rand, 0⟩, ⟨2 :: bs, (2 :: bs).length⟩) := by
  have hnone : findZeroFrom (2 :: bs) 0 = none := by
    apply findZeroFrom_none
    intro b hb
    rcases List.mem_cons.mp hb with h | h
    · subst h; omega
    · exact hbs b h
  constructor
  · exact find_zero_fail _ hnone
  · unfold PKCS.consume_padded_state
    dsimp only
    rw [read_bytes_1_eq _ 2 bs (by simp)]
    dsimp only
    rw [if_pos (rfl : (2 : Nat) = 2), find_zero_fail _ hnone]
    dsimp only
    rw [if_neg (by decide :
      ¬(((0 + 1 : Nat) : Int) - ((0 + 1 : Nat) : Int) ≥ 8))]
    dsimp only [ConstBitStream.read_bytes_rest]

/-- Witness for C10 at the buffer `[2, 1, 2, 3]` (no zero byte). -/
theorem pkcs_consume_no_separator_witness :
    ConstBitStream.find_zero ⟨2 :: [1, 2, 3], 1⟩ = (false, ⟨2 :: [1, 2, 3], 1⟩) ∧
    PKCS.consume_padded_state (2 :: [1, 2, 3]) (List.replicate 19 7) =
      .ok (⟨List.replicate 19 7, 0⟩, ⟨2 :: [1, 2, 3], (2 :: [1, 2, 3]).length⟩) :=
  pkcs_consume_no_separator [1, 2, 3] (List.replicate 19 7) (by decide) (by decide)

end Gpglib
